import Mathlib

/-!
A shallow embedding of `src/main.py`, a positive-news curation pipeline:
it loads a persisted JSON collection, walks an RSS feed under two budgets
(max 10 accepted, max 60 processed), filters titles locally, sends the
remaining entries to a remote classifier, parses the classifier's labeled
response into records, then sorts, saves and renders the merged collection.

External collaborators (the RSS transport, the Groq chat API, and the
`datetime` library's ISO parser) are modeled as oracle parameters gathered
in `Env`; everything else is translated directly from the source.
-/

namespace DobreZpravy

/-! ### Python string primitives

`str.split(sep)`, `str.replace(pat, rep)`, `str.strip()`, `str.lower()` and
the substring test `pat in s` are modeled on `List Char` so that every
definition is structural and evaluable by the kernel.  `pySplitFuel` is a
fuel-driven worker (fuel bounds the length of the remaining suffix); the
wrapper `pySplit` instantiates the fuel with the list's length.
-/

/-- Worker for `pySplit`: splits `s` on non-overlapping occurrences of `sep`,
scanning left to right, consuming at least one character per fuel unit. -/
def pySplitFuel (sep : List Char) : Nat → List Char → List (List Char)
  | _, [] => [[]]
  | 0, s => [s]
  | fuel+1, c :: rest =>
    if sep.isPrefixOf (c :: rest) && !sep.isEmpty then
      [] :: pySplitFuel sep fuel ((c :: rest).drop sep.length)
    else
      match pySplitFuel sep fuel rest with
      | [] => [[c]]
      | t :: ts => (c :: t) :: ts

/-- The result of `pySplitFuel` does not depend on the fuel, as long as the
fuel dominates the length of the input. -/
theorem pySplitFuel_congr (sep : List Char) :
    ∀ (n m : Nat) (s : List Char), s.length ≤ n → s.length ≤ m →
      pySplitFuel sep n s = pySplitFuel sep m s := by
  intro n
  induction n with
  | zero =>
    intro m s hn _
    have hs : s = [] := List.eq_nil_of_length_eq_zero (Nat.le_zero.mp hn)
    subst hs
    cases m <;> rfl
  | succ n ih =>
    intro m s hn hm
    cases s with
    | nil => cases m <;> rfl
    | cons c rest =>
      cases m with
      | zero => exact absurd hm (by simp)
      | succ m =>
        simp only [pySplitFuel]
        by_cases hcond : (sep.isPrefixOf (c :: rest) && !sep.isEmpty) = true
        · rw [if_pos hcond, if_pos hcond]
          have hsep : 1 ≤ sep.length := by
            cases sep with
            | nil => simp at hcond
            | cons _ _ => simp
          have hlen : ((c :: rest).drop sep.length).length ≤ n := by
            rw [List.length_drop]
            simp only [List.length_cons] at hn ⊢
            omega
          have hlen' : ((c :: rest).drop sep.length).length ≤ m := by
            rw [List.length_drop]
            simp only [List.length_cons] at hm ⊢
            omega
          rw [ih m _ hlen hlen']
        · rw [if_neg hcond, if_neg hcond]
          have h1 : rest.length ≤ n := by simp only [List.length_cons] at hn; omega
          have h2 : rest.length ≤ m := by simp only [List.length_cons] at hm; omega
          rw [ih m rest h1 h2]

/-- Python's `s.split(sep)` on character lists: splits `s` on every
non-overlapping occurrence of `sep`, left to right.  (Python raises on an
empty separator; the model is never called with one, and returns `[s]`.) -/
def pySplit (sep s : List Char) : List (List Char) := pySplitFuel sep s.length s

theorem pySplit_nil (sep : List Char) : pySplit sep [] = [[]] := rfl

theorem pySplit_cons (sep : List Char) (c : Char) (rest : List Char) :
    pySplit sep (c :: rest) =
      if sep.isPrefixOf (c :: rest) && !sep.isEmpty then
        [] :: pySplit sep ((c :: rest).drop sep.length)
      else
        match pySplit sep rest with
        | [] => [[c]]
        | t :: ts => (c :: t) :: ts := by
  show pySplitFuel sep (rest.length + 1) (c :: rest) = _
  simp only [pySplitFuel]
  by_cases hcond : (sep.isPrefixOf (c :: rest) && !sep.isEmpty) = true
  · rw [if_pos hcond, if_pos hcond]
    have hsep : 1 ≤ sep.length := by
      cases sep with
      | nil => simp at hcond
      | cons _ _ => simp
    have hlen : ((c :: rest).drop sep.length).length ≤ rest.length := by
      rw [List.length_drop]
      simp only [List.length_cons]
      omega
    rw [pySplitFuel_congr sep rest.length (((c :: rest).drop sep.length).length) _ hlen
      (Nat.le_refl _)]
    rfl
  · rw [if_neg hcond, if_neg hcond]
    rfl

/-- `pySplit` never returns the empty list (Python's `split` always yields at
least one piece). -/
theorem pySplit_ne_nil (sep s : List Char) : pySplit sep s ≠ [] := by
  cases s with
  | nil => simp [pySplit_nil]
  | cons c rest =>
    rw [pySplit_cons]
    by_cases hcond : (sep.isPrefixOf (c :: rest) && !sep.isEmpty) = true
    · rw [if_pos hcond]; simp
    · rw [if_neg hcond]
      cases pySplit sep rest <;> simp

/-- If the separator does not occur in `s`, splitting returns `[s]` —
Python's `[1]` indexing on such a result raises `IndexError`. -/
theorem pySplit_of_no_occurrence (sep s : List Char) (h : ¬ sep <:+: s) :
    pySplit sep s = [s] := by
  induction s with
  | nil => rfl
  | cons c rest ih =>
    rw [pySplit_cons]
    have hpre : sep.isPrefixOf (c :: rest) = false := by
      cases hx : sep.isPrefixOf (c :: rest)
      · rfl
      · exact absurd (List.infix_cons_iff.mpr (Or.inl (List.isPrefixOf_iff_prefix.mp hx))) h
    rw [if_neg (by simp [hpre])]
    have hrest : ¬ sep <:+: rest := fun hr => h (List.infix_cons_iff.mpr (Or.inr hr))
    rw [ih hrest]

/-- If the separator does occur in `s`, splitting returns at least two
pieces — Python's `[1]` indexing succeeds. -/
theorem two_le_length_pySplit (sep s : List Char) (hsep : sep ≠ [])
    (h : sep <:+: s) : 2 ≤ (pySplit sep s).length := by
  induction s with
  | nil =>
    exact absurd (List.eq_nil_of_infix_nil h) hsep
  | cons c rest ih =>
    rw [pySplit_cons]
    by_cases hcond : (sep.isPrefixOf (c :: rest) && !sep.isEmpty) = true
    · rw [if_pos hcond]
      have := List.length_pos.mpr (pySplit_ne_nil sep ((c :: rest).drop sep.length))
      simp only [List.length_cons]
      omega
    · rw [if_neg hcond]
      have hne : (!sep.isEmpty) = true := by
        cases sep with
        | nil => exact absurd rfl hsep
        | cons _ _ => rfl
      have hpre : sep.isPrefixOf (c :: rest) = false := by
        cases hx : sep.isPrefixOf (c :: rest)
        · rfl
        · exact absurd (by rw [hx, hne]; rfl :
            (sep.isPrefixOf (c :: rest) && !sep.isEmpty) = true) hcond
      have hrest : sep <:+: rest := by
        rcases List.infix_cons_iff.mp h with hp | hr
        · exact absurd (List.isPrefixOf_iff_prefix.mpr hp) (by simp [hpre])
        · exact hr
      have h2 := ih hrest
      cases hps : pySplit sep rest with
      | nil => exact absurd hps (pySplit_ne_nil sep rest)
      | cons t ts =>
        rw [hps] at h2
        simpa using h2

/-- Python's substring test `pat in s` on character lists. -/
def containsSub (pat : List Char) : List Char → Bool
  | [] => pat.isEmpty
  | c :: rest => pat.isPrefixOf (c :: rest) || containsSub pat rest

/-- `containsSub` decides the infix relation. -/
theorem containsSub_iff (pat s : List Char) : containsSub pat s = true ↔ pat <:+: s := by
  induction s with
  | nil =>
    simp only [containsSub, List.isEmpty_iff]
    constructor
    · intro h; simp [h]
    · intro h; exact List.eq_nil_of_infix_nil h
  | cons c rest ih =>
    simp only [containsSub, Bool.or_eq_true, List.isPrefixOf_iff_prefix, ih,
      List.infix_cons_iff]

/-- Python's `s.split(sep)` lifted to `String`. -/
def pySplitStr (s sep : String) : List String := (pySplit sep.data s.data).map String.mk

/-- Python's `s.replace(pat, rep)` (replace every non-overlapping occurrence,
left to right) expressed through `pySplit`. -/
def pyReplace (s pat rep : String) : String :=
  String.mk (List.intercalate rep.data (pySplit pat.data s.data))

/-- Python's `s.strip()`: drop whitespace from both ends. -/
def pyStrip (s : String) : String :=
  String.mk (((s.data.dropWhile Char.isWhitespace).reverse.dropWhile Char.isWhitespace).reverse)

/-- Python's `s.lower()` (character-wise; exact Unicode case folding is a
library detail irrelevant to the claims, which use ASCII-cased inputs). -/
def pyLower (s : String) : String := String.mk (s.data.map Char.toLower)

/-- Python's `pat in s` lifted to `String`. -/
def pyContains (s pat : String) : Bool := containsSub pat.data s.data

/-! ### Data model -/

/-- One raw feed item.  `description` is the value of
`getattr(entry, 'summary', '') or getattr(entry, 'description', '')`, and
`timestamp` is the value `parse_rss_date(entry)` returns for the entry (its
published/updated time in ISO form, or the current time as a fallback) —
both are oracle values attached to the entry, since they come from the feed
transport and the system clock. -/
structure Entry where
  link : String
  title : String
  description : String
  timestamp : String
deriving DecidableEq

/-- A curated record, exactly the dict built by `parse_ai_result` and stored
in `database.json`. -/
structure Article where
  category : String
  title : String
  summary : String
  link : String
  timestamp : String
  timestamp_display : String
  is_new : Bool
deriving DecidableEq

/-- The fields of a Python `datetime` consumed by
`strftime("%d. %m. %Y %H:%M")`. -/
structure PyDateTime where
  year : Nat
  month : Nat
  day : Nat
  hour : Nat
  minute : Nat

/-- Oracles for the external collaborators:
`response system user` is the Groq chat completion's message content for the
given system/user messages (`none` models a transport/service exception);
`fromIso` is `datetime.fromisoformat` (`none` models its `ValueError`). -/
structure Env where
  response : String → String → Option String
  fromIso : String → Option PyDateTime

/-- Zero-padded two-digit rendering (`%d`, `%m`, `%H`, `%M`). -/
def pad2 (n : Nat) : String := (if n < 10 then "0" else "") ++ toString n

/-- Zero-padded four-digit rendering (`%Y`). -/
def pad4 (n : Nat) : String :=
  (if n < 10 then "000" else if n < 100 then "00" else if n < 1000 then "0" else "") ++
    toString n

/-- `format_date_display`: renders an ISO timestamp as `"%d. %m. %Y %H:%M"`;
a malformed timestamp (parse failure) is returned unchanged. -/
def format_date_display (env : Env) (iso_date : String) : String :=
  match env.fromIso iso_date with
  | some dt =>
      pad2 dt.day ++ ". " ++ pad2 dt.month ++ ". " ++ pad4 dt.year ++ " " ++
        pad2 dt.hour ++ ":" ++ pad2 dt.minute
  | none => iso_date

/-! ### Local filter -/

/-- The fixed stop-word list of `is_worth_checking`. -/
def stop_words : List String :=
  ["vražda", "zabil", "zemřel", "úmrtí", "nehoda", "tragédie", "požár",
   "soud", "vězení", "policie", "krimi", "zloděj", "podvod",
   "babiš", "fiala", "okamura", "pavel", "sněmovna", "vláda", "volby",
   "válka", "rusko", "ukrajina", "izrael", "gaza", "útok", "zbraně",
   "recenze", "komentář", "glosa", "sport", "hokej", "fotbal", "liga"]

/-- `is_worth_checking(title)`: case-insensitive substring test of the title
against the stop-word list; any match rejects. -/
def is_worth_checking (title : String) : Bool :=
  let title_lower := pyLower title
  stop_words.all (fun word => !(containsSub word.data title_lower.data))

/-! ### Classifier adapter -/

/-- The fixed system instruction sent to the classifier. -/
def system_prompt : String :=
  "\n    Jsi editor seriózního pozitivního webu. \n" ++
  "    Analyzuj zprávu na základě titulku a perexu.\n    \n" ++
  "    KRITÉRIA:\n" ++
  "    1. Hledáme POUZE: Vědecké objevy, Technologické inovace, Byznysové úspěchy, " ++
  "Medicínské průlomy, Dokončené projekty, Pomoc lidem.\n" ++
  "    2. IGNORUJ: Politiku, Krimi, Nehody, Bulvár, Sportovní výsledky.\n    \n" ++
  "    POKUD ZPRÁVA NENÍ POZITIVNÍ:\n    Odpověz pouze slovem: SKIP\n    \n" ++
  "    POKUD JE POZITIVNÍ:\n    Odpověz v tomto formátu:\n" ++
  "    KATEGORIE: [Vyber jednu: Věda / Technologie / Medicína / Byznys / Společnost]\n" ++
  "    TITULEK: [Přeformuluj na úderný titulek, max 8 slov]\n" ++
  "    SHRNUTÍ: [Napiš kvalitní shrnutí na 30-50 slov.]\n    "

/-- The description cleanup in `analyze_article_with_groq`:
`description.replace("<br>", " ").replace("<p>", "")[:600]`. -/
def clean_desc (description : String) : String :=
  String.mk ((pyReplace (pyReplace description "<br>" " ") "<p>" "").data.take 600)

/-- The user message
`f"TITULEK: '{title}'\nPEREX: '{clean_desc}'\nODKAZ: {link}"`. -/
def user_content (title description link : String) : String :=
  "TITULEK: \x27" ++ title ++ "\x27\nPEREX: \x27" ++ clean_desc description ++
    "\x27\nODKAZ: " ++ link

/-- `analyze_article_with_groq(title, description, link)`: builds the user
message from the title, a cleaned and 600-character-truncated description and
the link, sends it to the classifier, strips the response, and rejects
(returns `none`) when the stripped text contains the sentinel `"SKIP"`.
A transport/service exception (`env.response … = none`) is also a reject;
on a rate-limit signature the code additionally sleeps 30 s before
returning, which does not affect the returned value. -/
def analyze_article_with_groq (env : Env) (title description link : String) :
    Option String :=
  match env.response system_prompt (user_content title description link) with
  | none => none
  | some content =>
      let text := pyStrip content
      if containsSub "SKIP".data text.data then none else some text

/-! ### Result parser -/

/-- The fixed category whitelist of `parse_ai_result`. -/
def valid_cats : List String := ["Věda", "Technologie", "Medicína", "Byznys", "Společnost"]

/-- The category value `parse_ai_result` extracts before whitelist
validation: the text between the first and second `"KATEGORIE:"`, cut at the
first `"TITULEK:"`, stripped. -/
def extracted_category (text : String) : String :=
  pyStrip ((pySplitStr (((pySplitStr text "KATEGORIE:").get? 1).getD "") "TITULEK:").headD "")

/-- `parse_ai_result(text, original_link, timestamp)`: locates the three
labeled segments by Python's `text.split(marker)[1]` indexing (an absent
marker raises `IndexError`, caught by the enclosing `try` → `None`), strips
them, removes quote characters from the title, substitutes the default
category `"Společnost"` when the extracted one is not whitelisted, and
builds the record with `is_new = True`. -/
def parse_ai_result (env : Env) (text original_link timestamp : String) :
    Option Article :=
  match (pySplitStr text "KATEGORIE:").get? 1 with
  | none => none
  | some catSeg =>
    match (pySplitStr text "TITULEK:").get? 1 with
    | none => none
    | some titleSeg =>
      match (pySplitStr text "SHRNUTÍ:").get? 1 with
      | none => none
      | some sumSeg =>
        let category0 := pyStrip ((pySplitStr catSeg "TITULEK:").headD "")
        let title0 := pyReplace (pyReplace (pyStrip ((pySplitStr titleSeg "SHRNUTÍ:").headD ""))
          "\"" "") "\x27" ""
        let summary := pyStrip sumSeg
        let category := if category0 ∈ valid_cats then category0 else "Společnost"
        some { category := category
               title := title0
               summary := summary
               link := original_link
               timestamp := timestamp
               timestamp_display := format_date_display env timestamp
               is_new := true }

/-! ### Main loop

The per-run observable behavior is recorded as an event trace: the inter-call
delay (`time.sleep(DELAY_SECONDS)`), the per-entry console messages, the
classifier invocations, and the finalize phase's save and render.
-/

inductive Event where
  | sleep
  | printAnalyzing (n : Nat)
  | classifyCall (link : String)
  | printBingo
  | printOdpad
  | printEnough
  | printLimit
  | save (data : List Article)
  | render (data : List Article)
deriving DecidableEq

/-- The loop's mutable state: `processed_count`, `new_articles_count`,
`db_articles`, and the emitted event trace. -/
structure LoopState where
  processed : Nat
  accepted : Nat
  db : List Article
  trace : List Event
deriving DecidableEq

/-- One iteration of the `for entry in feed.entries` body, after the budget
checks: duplicate check against the pre-run link snapshot, local filter,
then (counting the entry as processed) the optional inter-call delay
(`if processed_count > 1`), the classifier call, and on success the parser;
a parsed record is appended and `new_articles_count` incremented. -/
def processEntry (env : Env) (existing_links : List String) (st : LoopState)
    (e : Entry) : LoopState :=
  if e.link ∈ existing_links then
    { st with processed := st.processed + 1 }
  else if !(is_worth_checking e.title) then
    { st with processed := st.processed + 1 }
  else
    let processed := st.processed + 1
    let tr := st.trace ++ (if processed > 1 then [Event.sleep] else []) ++
      [Event.printAnalyzing processed, Event.classifyCall e.link]
    match analyze_article_with_groq env e.title e.description e.link with
    | some result =>
        let tr2 := tr ++ [Event.printBingo]
        match parse_ai_result env result e.link e.timestamp with
        | some parsed =>
            { processed := processed, accepted := st.accepted + 1,
              db := st.db ++ [parsed], trace := tr2 }
        | none =>
            { processed := processed, accepted := st.accepted, db := st.db, trace := tr2 }
    | none =>
        { processed := processed, accepted := st.accepted, db := st.db,
          trace := tr ++ [Event.printOdpad] }

/-- The main loop: before each entry it stops when `new_articles_count >= 10`
(first) or `processed_count >= 60` (second), otherwise processes the entry
and continues; an exhausted feed simply ends the loop. -/
def runLoop (env : Env) (existing_links : List String) :
    List Entry → LoopState → LoopState
  | [], st => st
  | e :: rest, st =>
    if st.accepted ≥ 10 then { st with trace := st.trace ++ [Event.printEnough] }
    else if st.processed ≥ 60 then { st with trace := st.trace ++ [Event.printLimit] }
    else runLoop env existing_links rest (processEntry env existing_links st e)

/-! ### Sorter -/

/-- Code-point lexicographic comparison of character lists — Python's `<=`
on `str` (and the one induced by Lean's order on `String`, see
`charListLE_iff_le`). -/
def charListLE : List Char → List Char → Bool
  | [], _ => true
  | _ :: _, [] => false
  | c :: cs, d :: ds =>
    if c.toNat < d.toNat then true
    else if d.toNat < c.toNat then false
    else charListLE cs ds

theorem charListLE_cons_iff (c d : Char) (cs ds : List Char) :
    charListLE (c :: cs) (d :: ds) = true ↔
      c.toNat < d.toNat ∨ (c.toNat = d.toNat ∧ charListLE cs ds = true) := by
  simp only [charListLE]
  split_ifs with h1 h2
  · simp [h1]
  · constructor
    · intro h; exact absurd h (by simp)
    · rintro (h | ⟨h, _⟩) <;> omega
  · constructor
    · intro h; exact Or.inr ⟨by omega, h⟩
    · rintro (h | ⟨_, h⟩)
      · omega
      · exact h

theorem charListLE_refl : ∀ xs : List Char, charListLE xs xs = true := by
  intro xs
  induction xs with
  | nil => rfl
  | cons c cs ih => exact (charListLE_cons_iff c c cs cs).mpr (Or.inr ⟨rfl, ih⟩)

theorem charListLE_total : ∀ xs ys : List Char,
    charListLE xs ys = true ∨ charListLE ys xs = true := by
  intro xs
  induction xs with
  | nil => intro ys; exact Or.inl rfl
  | cons c cs ih =>
    intro ys
    cases ys with
    | nil => exact Or.inr rfl
    | cons d ds =>
      rcases Nat.lt_trichotomy c.toNat d.toNat with h | h | h
      · exact Or.inl ((charListLE_cons_iff c d cs ds).mpr (Or.inl h))
      · rcases ih ds with h' | h'
        · exact Or.inl ((charListLE_cons_iff c d cs ds).mpr (Or.inr ⟨h, h'⟩))
        · exact Or.inr ((charListLE_cons_iff d c ds cs).mpr (Or.inr ⟨h.symm, h'⟩))
      · exact Or.inr ((charListLE_cons_iff d c ds cs).mpr (Or.inl h))

theorem charListLE_trans : ∀ xs ys zs : List Char,
    charListLE xs ys = true → charListLE ys zs = true → charListLE xs zs = true := by
  intro xs
  induction xs with
  | nil => intro ys zs _ _; rfl
  | cons c cs ih =>
    intro ys zs h1 h2
    cases ys with
    | nil => simp [charListLE] at h1
    | cons d ds =>
      cases zs with
      | nil => simp [charListLE] at h2
      | cons e es =>
        rw [charListLE_cons_iff] at h1 h2 ⊢
        rcases h1 with h1 | ⟨h1, h1'⟩ <;> rcases h2 with h2 | ⟨h2, h2'⟩
        · exact Or.inl (by omega)
        · exact Or.inl (by omega)
        · exact Or.inl (by omega)
        · exact Or.inr ⟨by omega, ih ds es h1' h2'⟩

theorem charListLE_iff_not_lex : ∀ xs ys : List Char,
    charListLE xs ys = true ↔ ¬ List.Lex (· < ·) ys xs := by
  intro xs
  induction xs with
  | nil =>
    intro ys
    constructor
    · intro _ h; cases h
    · intro _; rfl
  | cons c cs ih =>
    intro ys
    cases ys with
    | nil =>
      constructor
      · intro h; simp [charListLE] at h
      · intro h; exact absurd List.Lex.nil h
    | cons d ds =>
      rw [charListLE_cons_iff]
      constructor
      · rintro (h | ⟨h, hrec⟩) hlex
        · cases hlex with
          | cons h3 => omega
          | rel hdc =>
            have hdc' : d.toNat < c.toNat := hdc
            omega
        · have hcd : c = d :=
            Char.ofNat_toNat c ▸ Char.ofNat_toNat d ▸ congrArg Char.ofNat h
          subst hcd
          cases hlex with
          | cons h3 => exact (ih ds).mp hrec h3
          | rel hdc =>
            have hdc' : c.toNat < c.toNat := hdc
            omega
      · intro hno
        rcases Nat.lt_trichotomy c.toNat d.toNat with h | h | h
        · exact Or.inl h
        · have hcd : c = d :=
            Char.ofNat_toNat c ▸ Char.ofNat_toNat d ▸ congrArg Char.ofNat h
          subst hcd
          refine Or.inr ⟨rfl, (ih ds).mpr ?_⟩
          intro hlex
          exact hno (List.Lex.cons hlex)
        · exact absurd (List.Lex.rel (show d < c from h)) hno

/-- `charListLE` agrees with the linear order on `List Char` — hence, via
`String.le_iff_toList_le`, with the order on `String`.  This is also
Python's `<=` on `str` (both compare code points lexicographically). -/
theorem charListLE_iff_le (xs ys : List Char) : charListLE xs ys = true ↔ xs ≤ ys := by
  rw [charListLE_iff_not_lex]
  constructor
  · intro h
    rw [← not_lt]
    intro hlt
    exact h hlt
  · intro h
    rw [← not_lt] at h
    intro hlex
    exact h hlex

/-- `charListLE` on the character data decides `≤` on `String`. -/
theorem charListLE_data_iff_le (a b : String) :
    charListLE a.data b.data = true ↔ a ≤ b := by
  rw [String.le_iff_toList_le]
  exact charListLE_iff_le a.data b.data

/-- `a` may precede `b` under
`db_articles.sort(key=lambda x: (x.get('is_new', False), x.get('timestamp', '')), reverse=True)`:
the key of `b` is lexicographically ≤ the key of `a`, with `False < True`
on booleans and code-point lexicographic order on timestamp strings. -/
def sortKeyLE (a b : Article) : Prop :=
  b.is_new.toNat < a.is_new.toNat ∨
    (b.is_new = a.is_new ∧ charListLE b.timestamp.data a.timestamp.data = true)

instance : DecidableRel sortKeyLE := fun a b => by
  unfold sortKeyLE; infer_instance

instance : IsTotal Article sortKeyLE := by
  constructor
  intro a b
  unfold sortKeyLE
  by_cases h : a.is_new = b.is_new
  · rcases charListLE_total b.timestamp.data a.timestamp.data with hle | hle
    · exact Or.inl (Or.inr ⟨h.symm, hle⟩)
    · exact Or.inr (Or.inr ⟨h, hle⟩)
  · have hne : a.is_new.toNat ≠ b.is_new.toNat := by
      cases ha : a.is_new <;> cases hb : b.is_new <;> simp_all
    rcases lt_or_gt_of_ne hne with hlt | hlt
    · exact Or.inr (Or.inl hlt)
    · exact Or.inl (Or.inl hlt)

instance : IsTrans Article sortKeyLE := by
  constructor
  intro a b c hab hbc
  rcases hab with h1 | ⟨h1, h1'⟩ <;> rcases hbc with h2 | ⟨h2, h2'⟩
  · exact Or.inl (lt_trans h2 h1)
  · exact Or.inl (by rw [h2]; exact h1)
  · exact Or.inl (by rw [← h1]; exact h2)
  · exact Or.inr ⟨h2.trans h1, charListLE_trans _ _ _ h2' h1'⟩

/-- The final sort: Python's stable `list.sort` with the descending
`(is_new, timestamp)` key, embodied as a stable insertion sort over
`sortKeyLE` (a total preorder; any stable sort of the same preorder yields
the same list). -/
def sortArticles (l : List Article) : List Article := List.insertionSort sortKeyLE l

/-! ### Finalize phase and the whole run -/

/-- The `finally:` block: sort the whole merged collection in place, save it
(full overwrite of `database.json`), and render the page from it. -/
def finalize (st : LoopState) : LoopState :=
  let sorted := sortArticles st.db
  { st with db := sorted, trace := st.trace ++ [Event.save sorted, Event.render sorted] }

/-- A whole run after startup: snapshot the duplicate-lookup links from the
loaded collection (`get_existing_links`), run the loop (a
`KeyboardInterrupt` arriving before the `k`-th iteration is modeled by
truncating the fed entries to `entries.take k`; the `try/except/finally`
shape makes the finalize phase run in every case). -/
def runMain (env : Env) (db0 : List Article) (entries : List Entry)
    (interrupt : Option Nat) : LoopState :=
  let existing_links := db0.map (fun a => a.link)
  let fed := match interrupt with
    | none => entries
    | some k => entries.take k
  finalize (runLoop env existing_links fed
    { processed := 0, accepted := 0, db := db0, trace := [] })

/-- Whether an event is a store write. -/
def Event.isSave : Event → Bool
  | Event.save _ => true
  | _ => false

/-- Number of `save` events in a trace. -/
def savesIn (tr : List Event) : Nat := (tr.filter Event.isSave).length

/-! ### Persisted store at the JSON-object level

`load_database` / `save_database` / `get_existing_links` operate on parsed
JSON objects (Python dicts).  A dict is a key-ordered association list with
distinct keys; values in this store are strings and booleans.  `none` for
the `stored` argument models a missing/unreadable/malformed file (the
recovered branch of `load_database`); `json.dump(..., ensure_ascii=False)` /
`json.load` round-trip the field values losslessly, so persisting is the
identity on content. -/

inductive JVal where
  | str (s : String)
  | bool (b : Bool)
deriving DecidableEq

/-- A parsed JSON object (Python dict): ordered key/value pairs. -/
abbrev JObj := List (String × JVal)

/-- Python `item[k]` lookup, `none` for a `KeyError`. -/
def dictGet? : JObj → String → Option JVal
  | [], _ => none
  | p :: rest, k => if p.1 = k then some p.2 else dictGet? rest k

/-- Python `item[k] = v`: replace in place, or append a new key. -/
def dictSet : JObj → String → JVal → JObj
  | [], k, v => [(k, v)]
  | p :: rest, k, v => if p.1 = k then (k, v) :: rest else p :: dictSet rest k v

/-- `load_database()`: a missing file or any read/parse failure degrades to
an empty collection; on success every loaded record gets
`article['is_new'] = False`. -/
def load_database (stored : Option (List JObj)) : List JObj :=
  match stored with
  | none => []
  | some data => data.map (fun a => dictSet a "is_new" (JVal.bool false))

/-- `save_database(data)`: serializes the entire collection, overwriting the
file in full; the persisted content is the collection itself. -/
def save_database (data : List JObj) : List JObj := data

/-- `get_existing_links(data)`: the set `{item['link'] for item in data}`,
as the list of `'link'` values; a record without a `'link'` key raises
`KeyError`, modeled as `none`. -/
def get_existing_links : List JObj → Option (List JVal)
  | [] => some []
  | item :: rest =>
    match dictGet? item "link", get_existing_links rest with
    | some v, some vs => some (v :: vs)
    | _, _ => none

/-- The module-level startup: `db_articles = load_database()` followed by
`existing_links = get_existing_links(db_articles)`, with no surrounding
`try` — a `KeyError` from the lookup is fatal (`none`). -/
def startup (stored : Option (List JObj)) : Option (List JObj × List JVal) :=
  let db := load_database stored
  match get_existing_links db with
  | none => none
  | some links => some (db, links)

/-! ### Helper lemmas about the parser and the adapter -/

theorem get?_one_of_two_le {α : Type} (l : List α) (h : 2 ≤ l.length) :
    ∃ x, l.get? 1 = some x := by
  match l with
  | [] => simp at h
  | [a] => simp at h
  | a :: b :: t => exact ⟨b, rfl⟩

/-- A marker that does not occur in the text makes Python's
`text.split(marker)[1]` raise (`get? 1 = none`). -/
theorem pySplitStr_get?_one_none (text sep : String)
    (h : ¬ sep.data <:+: text.data) : (pySplitStr text sep).get? 1 = none := by
  unfold pySplitStr
  rw [pySplit_of_no_occurrence sep.data text.data h]
  rfl

/-- A marker that occurs in the text makes Python's `text.split(marker)[1]`
succeed. -/
theorem pySplitStr_get?_one_some (text sep : String) (hsep : sep.data ≠ [])
    (h : sep.data <:+: text.data) : ∃ seg, (pySplitStr text sep).get? 1 = some seg := by
  apply get?_one_of_two_le
  unfold pySplitStr
  rw [List.length_map]
  exact two_le_length_pySplit sep.data text.data hsep h

/-- Any record `parse_ai_result` produces carries the entry's link, the
entry's timestamp, and `is_new = true`. -/
theorem parse_ai_result_fields (env : Env) (text link ts : String) (rec : Article)
    (h : parse_ai_result env text link ts = some rec) :
    rec.link = link ∧ rec.timestamp = ts ∧ rec.is_new = true := by
  unfold parse_ai_result at h
  cases h1 : (pySplitStr text "KATEGORIE:").get? 1 with
  | none => rw [h1] at h; exact absurd h (by simp)
  | some catSeg =>
    rw [h1] at h
    cases h2 : (pySplitStr text "TITULEK:").get? 1 with
    | none => rw [h2] at h; exact absurd h (by simp)
    | some titleSeg =>
      rw [h2] at h
      cases h3 : (pySplitStr text "SHRNUTÍ:").get? 1 with
      | none => rw [h3] at h; exact absurd h (by simp)
      | some sumSeg =>
        rw [h3] at h
        simp only [Option.some.injEq] at h
        rw [← h]
        exact ⟨rfl, rfl, rfl⟩

/-- A text in which any of the three field markers is missing parses to
`None` (the `IndexError` of the corresponding `[1]` is caught by the
`try`/`except`). -/
theorem parse_ai_result_none_of_missing (env : Env) (text link ts : String)
    (h : ¬ "KATEGORIE:".data <:+: text.data ∨ ¬ "TITULEK:".data <:+: text.data ∨
      ¬ "SHRNUTÍ:".data <:+: text.data) :
    parse_ai_result env text link ts = none := by
  unfold parse_ai_result
  rcases h with h | h | h
  · rw [pySplitStr_get?_one_none text "KATEGORIE:" h]
  · cases h1 : (pySplitStr text "KATEGORIE:").get? 1 with
    | none => rfl
    | some catSeg => rw [pySplitStr_get?_one_none text "TITULEK:" h]
  · cases h1 : (pySplitStr text "KATEGORIE:").get? 1 with
    | none => rfl
    | some catSeg =>
      cases h2 : (pySplitStr text "TITULEK:").get? 1 with
      | none => rfl
      | some titleSeg => rw [pySplitStr_get?_one_none text "SHRNUTÍ:" h]

/-! ## The claims -/

/-- **C4**: for every classifier response text, if `"SKIP"` occurs anywhere in
the stripped response text, the adapter returns a reject for that entry —
even if the three well-formed labeled fields also appear in the same text —
and the loop step for that entry creates no record and accepts nothing. -/
theorem C4_skip_rejected (env : Env) (e : Entry) (content : String)
    (hresp : env.response system_prompt (user_content e.title e.description e.link) =
      some content)
    (hskip : "SKIP".data <:+: (pyStrip content).data) :
    analyze_article_with_groq env e.title e.description e.link = none ∧
      ∀ (links : List String) (st : LoopState),
        (processEntry env links st e).db = st.db ∧
        (processEntry env links st e).accepted = st.accepted := by
  have hana : analyze_article_with_groq env e.title e.description e.link = none := by
    unfold analyze_article_with_groq
    rw [hresp]
    simp only
    rw [if_pos ((containsSub_iff "SKIP".data (pyStrip content).data).mpr hskip)]
  refine ⟨hana, ?_⟩
  intro links st
  unfold processEntry
  by_cases hdup : e.link ∈ links
  · rw [if_pos hdup]; exact ⟨rfl, rfl⟩
  · rw [if_neg hdup]
    by_cases hfil : is_worth_checking e.title = true
    · rw [if_neg (by simp [hfil])]
      rw [hana]
      exact ⟨rfl, rfl⟩
    · rw [if_pos (by simp [Bool.not_eq_true] at hfil ⊢; exact hfil)]
      exact ⟨rfl, rfl⟩

def c4Env : Env where
  response := fun _ _ => some "  Bohuzel SKIP. KATEGORIE: Věda TITULEK: T SHRNUTÍ: S  "
  fromIso := fun _ => none

def c4Entry : Entry :=
  { link := "https4", title := "spolecnost slavi uspech", description := "", timestamp := "t4" }

theorem C4_skip_rejected_witness :
    analyze_article_with_groq c4Env c4Entry.title c4Entry.description c4Entry.link = none ∧
    (processEntry c4Env [] { processed := 0, accepted := 0, db := [], trace := [] }
      c4Entry).db = [] := by
  have h := C4_skip_rejected c4Env c4Entry
    "  Bohuzel SKIP. KATEGORIE: Věda TITULEK: T SHRNUTÍ: S  "
    (by decide)
    ((containsSub_iff _ _).mp (by decide))
  exact ⟨h.1, (h.2 [] { processed := 0, accepted := 0, db := [], trace := [] }).1⟩

/-- **C6 (amended)**: a text in which any of the three ordered field markers
is missing makes `ResultParser` return a reject (no record), non-fatally —
the parser never raises; the entry is simply skipped (nothing appended,
nothing accepted).  No rejection message is logged for a parse failure: the
loop has already printed the acceptance message by then (see
`C6_counterexample`). -/
theorem C6_missing_marker (env : Env) (text : String)
    (h : ¬ "KATEGORIE:".data <:+: text.data ∨ ¬ "TITULEK:".data <:+: text.data ∨
      ¬ "SHRNUTÍ:".data <:+: text.data) :
    (∀ link ts, parse_ai_result env text link ts = none) ∧
      ∀ (links : List String) (st : LoopState) (e : Entry),
        analyze_article_with_groq env e.title e.description e.link = some text →
        (processEntry env links st e).db = st.db ∧
        (processEntry env links st e).accepted = st.accepted := by
  refine ⟨fun link ts => parse_ai_result_none_of_missing env text link ts h, ?_⟩
  intro links st e hana
  unfold processEntry
  by_cases hdup : e.link ∈ links
  · rw [if_pos hdup]; exact ⟨rfl, rfl⟩
  · rw [if_neg hdup]
    by_cases hfil : is_worth_checking e.title = true
    · rw [if_neg (by simp [hfil])]
      simp only [hana, parse_ai_result_none_of_missing env text e.link e.timestamp h]
      exact ⟨trivial, trivial⟩
    · rw [if_pos (by simp [Bool.not_eq_true] at hfil ⊢; exact hfil)]
      exact ⟨rfl, rfl⟩

def c6Env : Env where
  response := fun _ _ => some "KATEGORIE: Věda TITULEK: Chybi shrnuti"
  fromIso := fun _ => none

def c6Entry : Entry :=
  { link := "https6", title := "vedci meli uspech", description := "", timestamp := "t6" }

theorem C6_missing_marker_witness :
    parse_ai_result c6Env "KATEGORIE: Věda TITULEK: Chybi shrnuti" "https6" "t6" = none ∧
    (processEntry c6Env [] { processed := 0, accepted := 0, db := [], trace := [] }
      c6Entry).db = [] ∧
    (processEntry c6Env [] { processed := 0, accepted := 0, db := [], trace := [] }
      c6Entry).accepted = 0 := by
  have h := C6_missing_marker c6Env "KATEGORIE: Věda TITULEK: Chybi shrnuti"
    (Or.inr (Or.inr (fun hinf =>
      absurd ((containsSub_iff _ _).mpr hinf) (by decide))))
  have h2 := h.2 [] { processed := 0, accepted := 0, db := [], trace := [] } c6Entry
    (by decide)
  exact ⟨h.1 "https6" "t6", h2.1, h2.2⟩

/-- **C6, as stated, is false on the code**: the claim also asserts "the
rejection is logged", but `parse_ai_result`'s `except` branch prints
nothing, and the loop prints nothing when `parsed` is `None` — on the
contrary, the acceptance message `"✅ BINGO! Přidávám do DB."` was already
printed before parsing.  Concretely: the classifier accepts (no `SKIP`),
parsing fails (missing `SHRNUTÍ:`), and the run's whole trace is the
analyzing message, the classifier call and the BINGO print — it contains no
reject log (`printOdpad`, the program's only rejection message) and no other
record of the failure; the record set stays empty. -/
theorem C6_counterexample :
    parse_ai_result c6Env "KATEGORIE: Věda TITULEK: Chybi shrnuti" "https6" "t6" = none ∧
    (runLoop c6Env [] [c6Entry]
      { processed := 0, accepted := 0, db := [], trace := [] }).trace =
      [Event.printAnalyzing 1, Event.classifyCall "https6", Event.printBingo] ∧
    Event.printOdpad ∉ (runLoop c6Env [] [c6Entry]
      { processed := 0, accepted := 0, db := [], trace := [] }).trace ∧
    (runLoop c6Env [] [c6Entry]
      { processed := 0, accepted := 0, db := [], trace := [] }).db = [] := by
  refine ⟨?_, by decide, by decide, by decide⟩
  decide

/-- **C7**: for every parser input containing all three field markers, the
parser always returns a fully populated record with `is_new = true`, the
entry's link and timestamp, and the extracted category when whitelisted —
otherwise the default `"Společnost"`; an out-of-whitelist category never
causes a rejection. -/
theorem C7_whitelist_default (env : Env) (text link ts : String)
    (h1 : "KATEGORIE:".data <:+: text.data)
    (h2 : "TITULEK:".data <:+: text.data)
    (h3 : "SHRNUTÍ:".data <:+: text.data) :
    ∃ rec, parse_ai_result env text link ts = some rec ∧
      rec.is_new = true ∧ rec.link = link ∧ rec.timestamp = ts ∧
      rec.category =
        (if extracted_category text ∈ valid_cats then extracted_category text
         else "Společnost") := by
  obtain ⟨catSeg, hc⟩ := pySplitStr_get?_one_some text "KATEGORIE:" (by decide) h1
  obtain ⟨titleSeg, ht⟩ := pySplitStr_get?_one_some text "TITULEK:" (by decide) h2
  obtain ⟨sumSeg, hs⟩ := pySplitStr_get?_one_some text "SHRNUTÍ:" (by decide) h3
  have hcat : extracted_category text = pyStrip ((pySplitStr catSeg "TITULEK:").headD "") := by
    unfold extracted_category
    rw [hc]
    rfl
  unfold parse_ai_result
  rw [hc, ht, hs]
  refine ⟨_, rfl, rfl, rfl, rfl, ?_⟩
  rw [hcat]

def c7Text : String := "KATEGORIE: Kuriozity TITULEK: Titulek dne SHRNUTÍ: Kratke shrnuti."

theorem C7_whitelist_default_witness :
    extracted_category c7Text = "Kuriozity" ∧
    "Kuriozity" ∉ valid_cats ∧
    ∃ rec, parse_ai_result c4Env c7Text "L7" "t7" = some rec ∧
      rec.is_new = true ∧ rec.link = "L7" ∧ rec.timestamp = "t7" ∧
      rec.category =
        (if extracted_category c7Text ∈ valid_cats then extracted_category c7Text
         else "Společnost") := by
  refine ⟨by decide, by decide, ?_⟩
  exact C7_whitelist_default c4Env c7Text "L7" "t7"
    ((containsSub_iff _ _).mp (by decide))
    ((containsSub_iff _ _).mp (by decide))
    ((containsSub_iff _ _).mp (by decide))

/-! ### Helper lemmas about the main loop -/

/-- Every branch of the loop body increments `processed_count` exactly
once. -/
theorem processEntry_processed (env : Env) (links : List String) (st : LoopState)
    (e : Entry) : (processEntry env links st e).processed = st.processed + 1 := by
  unfold processEntry
  by_cases hdup : e.link ∈ links
  · rw [if_pos hdup]
  · rw [if_neg hdup]
    by_cases hfil : is_worth_checking e.title = true
    · rw [if_neg (by simp [hfil])]
      split
      · split <;> rfl
      · rfl
    · rw [if_pos (by simp [Bool.not_eq_true] at hfil ⊢; exact hfil)]

/-- The loop body increments `new_articles_count` by at most one. -/
theorem processEntry_accepted_le (env : Env) (links : List String) (st : LoopState)
    (e : Entry) : (processEntry env links st e).accepted ≤ st.accepted + 1 := by
  unfold processEntry
  by_cases hdup : e.link ∈ links
  · rw [if_pos hdup]; exact Nat.le_succ st.accepted
  · rw [if_neg hdup]
    by_cases hfil : is_worth_checking e.title = true
    · rw [if_neg (by simp [hfil])]
      split
      · split
        · exact Nat.le_refl (st.accepted + 1)
        · exact Nat.le_succ st.accepted
      · exact Nat.le_succ st.accepted
    · rw [if_pos (by simp [Bool.not_eq_true] at hfil ⊢; exact hfil)]
      exact Nat.le_succ st.accepted

theorem runLoop_accepted_le (env : Env) (links : List String) :
    ∀ (entries : List Entry) (st : LoopState), st.accepted ≤ 10 →
      (runLoop env links entries st).accepted ≤ 10 := by
  intro entries
  induction entries with
  | nil => intro st h; exact h
  | cons e rest ih =>
    intro st h
    unfold runLoop
    by_cases h10 : st.accepted ≥ 10
    · rw [if_pos h10]; exact h
    · rw [if_neg h10]
      by_cases h60 : st.processed ≥ 60
      · rw [if_pos h60]; exact h
      · rw [if_neg h60]
        apply ih
        have := processEntry_accepted_le env links st e
        omega

theorem runLoop_processed_le (env : Env) (links : List String) :
    ∀ (entries : List Entry) (st : LoopState), st.processed ≤ 60 →
      (runLoop env links entries st).processed ≤ 60 := by
  intro entries
  induction entries with
  | nil => intro st h; exact h
  | cons e rest ih =>
    intro st h
    unfold runLoop
    by_cases h10 : st.accepted ≥ 10
    · rw [if_pos h10]; exact h
    · rw [if_neg h10]
      by_cases h60 : st.processed ≥ 60
      · rw [if_pos h60]; exact h
      · rw [if_neg h60]
        apply ih
        rw [processEntry_processed]
        omega

/-! ### C3 -/

/-- **C3**: the budgets are checked before each entry, accepted budget
first: once 10 acceptances occurred, the loop stops immediately with the
"enough" message — issuing no further classifier call — even if the
processed budget is also exhausted; otherwise once 60 entries were
processed it stops with the "limit" message; consequently a run that starts
from zero counters accepts at most 10 records and processes at most 60
entries (duplicates, local rejects and classified entries combined). -/
theorem C3_budgets (env : Env) (links : List String) (entries : List Entry)
    (db0 : List Article) :
    (runLoop env links entries
      { processed := 0, accepted := 0, db := db0, trace := [] }).accepted ≤ 10 ∧
    (runLoop env links entries
      { processed := 0, accepted := 0, db := db0, trace := [] }).processed ≤ 60 ∧
    (∀ (st : LoopState) (e : Entry) (rest : List Entry), 10 ≤ st.accepted →
      runLoop env links (e :: rest) st =
        { st with trace := st.trace ++ [Event.printEnough] }) ∧
    (∀ (st : LoopState) (e : Entry) (rest : List Entry),
      st.accepted < 10 → 60 ≤ st.processed →
      runLoop env links (e :: rest) st =
        { st with trace := st.trace ++ [Event.printLimit] }) := by
  refine ⟨runLoop_accepted_le env links entries _ (Nat.zero_le 10),
    runLoop_processed_le env links entries _ (Nat.zero_le 60), ?_, ?_⟩
  · intro st e rest h
    unfold runLoop
    rw [if_pos h]
  · intro st e rest h1 h2
    unfold runLoop
    rw [if_neg (by omega), if_pos h2]

theorem C3_budgets_witness :
    (runLoop ⟨fun _ _ => none, fun _ => none⟩ [] []
      { processed := 0, accepted := 0, db := [], trace := [] }).accepted ≤ 10 ∧
    runLoop ⟨fun _ _ => none, fun _ => none⟩ []
      [{ link := "L", title := "t", description := "", timestamp := "ts" }]
      { processed := 61, accepted := 10, db := [], trace := [] } =
      { processed := 61, accepted := 10, db := [], trace := [Event.printEnough] } ∧
    runLoop ⟨fun _ _ => none, fun _ => none⟩ []
      [{ link := "L", title := "t", description := "", timestamp := "ts" }]
      { processed := 60, accepted := 3, db := [], trace := [] } =
      { processed := 60, accepted := 3, db := [], trace := [Event.printLimit] } := by
  have h := C3_budgets ⟨fun _ _ => none, fun _ => none⟩ [] [] []
  refine ⟨h.1, ?_, ?_⟩
  · exact h.2.2.1 { processed := 61, accepted := 10, db := [], trace := [] }
      { link := "L", title := "t", description := "", timestamp := "ts" } [] (by decide)
  · exact h.2.2.2 { processed := 60, accepted := 3, db := [], trace := [] }
      { link := "L", title := "t", description := "", timestamp := "ts" } [] (by decide) (by decide)

/-! ### C5 -/

/-- **C5 (amended)**: the inter-call delay before a classifier call is
governed by the *processed* counter (duplicates and local rejects
included), not by the count of classified entries: for an entry that
reaches the classifier stage, the delay is emitted exactly when the
incremented processed counter exceeds 1, i.e. it is skipped only when the
entry is the very first processed entry of the run.  In particular every
classified entry with any prior processed entry — classified or not — is
preceded by the delay, and no other delay occurs in the entry's events. -/
theorem C5_delay_iff_processed (env : Env) (links : List String) (st : LoopState)
    (e : Entry) (hdup : e.link ∉ links) (hfil : is_worth_checking e.title = true) :
    ∃ tail, (processEntry env links st e).trace =
      st.trace ++ (if 1 ≤ st.processed then [Event.sleep] else []) ++
        [Event.printAnalyzing (st.processed + 1), Event.classifyCall e.link] ++ tail ∧
      Event.sleep ∉ tail := by
  unfold processEntry
  rw [if_neg hdup, if_neg (by simp [hfil])]
  split
  · split
    · refine ⟨[Event.printBingo], ?_, by simp⟩
      by_cases h : 1 ≤ st.processed
      · simp [h, show st.processed + 1 > 1 by omega, List.append_assoc]
      · simp [h, show ¬ st.processed + 1 > 1 by omega, List.append_assoc]
    · refine ⟨[Event.printBingo], ?_, by simp⟩
      by_cases h : 1 ≤ st.processed
      · simp [h, show st.processed + 1 > 1 by omega, List.append_assoc]
      · simp [h, show ¬ st.processed + 1 > 1 by omega, List.append_assoc]
  · refine ⟨[Event.printOdpad], ?_, by simp⟩
    by_cases h : 1 ≤ st.processed
    · simp [h, show st.processed + 1 > 1 by omega, List.append_assoc]
    · simp [h, show ¬ st.processed + 1 > 1 by omega, List.append_assoc]

def c5Env : Env where
  response := fun _ _ => none
  fromIso := fun _ => none

def c5Dup : Entry :=
  { link := "L1", title := "novinka dne", description := "", timestamp := "t1" }

def c5New : Entry :=
  { link := "L2", title := "uspech vedcu", description := "", timestamp := "t2" }

/-- **C5, as stated, is false on the code**: the delay condition is
`processed_count > 1`, and `processed_count` also counts duplicates and
local rejects.  Concretely: the feed is a known duplicate followed by a
fresh entry; the fresh entry is the first entry of the run that reaches the
classifier stage, yet its classifier call *is* preceded by the delay — the
run's whole trace begins with the sleep event. -/
theorem C5_counterexample :
    (runLoop c5Env ["L1"] [c5Dup, c5New]
      { processed := 0, accepted := 0, db := [], trace := [] }).trace =
      [Event.sleep, Event.printAnalyzing 2, Event.classifyCall "L2",
        Event.printOdpad] := by
  decide

theorem C5_delay_iff_processed_witness :
    ∃ tail, (processEntry c5Env ["L1"]
        { processed := 1, accepted := 0, db := [], trace := [] } c5New).trace =
      [] ++ (if 1 ≤ 1 then [Event.sleep] else []) ++
        [Event.printAnalyzing 2, Event.classifyCall "L2"] ++ tail ∧
      Event.sleep ∉ tail :=
  C5_delay_iff_processed c5Env ["L1"]
    { processed := 1, accepted := 0, db := [], trace := [] } c5New
    (by decide) (by decide)

/-! ### C1 -/

/-- The loop body either leaves the collection unchanged, or — only for an
entry whose link is not in the duplicate snapshot — appends one record
carrying that entry's link. -/
theorem processEntry_db (env : Env) (links : List String) (st : LoopState) (e : Entry) :
    (processEntry env links st e).db = st.db ∨
      (e.link ∉ links ∧ ∃ parsed : Article, parsed.link = e.link ∧
        (processEntry env links st e).db = st.db ++ [parsed]) := by
  unfold processEntry
  by_cases hdup : e.link ∈ links
  · rw [if_pos hdup]; exact Or.inl rfl
  · rw [if_neg hdup]
    by_cases hfil : is_worth_checking e.title = true
    · rw [if_neg (by simp [hfil])]
      split
      · split
        · rename_i xo result hana xp parsed hp
          exact Or.inr ⟨hdup, parsed, (parse_ai_result_fields env result e.link e.timestamp
            parsed hp).1, rfl⟩
        · exact Or.inl rfl
      · exact Or.inl rfl
    · rw [if_pos (by simp [Bool.not_eq_true] at hfil ⊢; exact hfil)]
      exact Or.inl rfl

/-- Invariant of the main loop: if the accumulated links are distinct, the
remaining feed links are distinct, and every accumulated link is either in
the pre-run snapshot or absent from the remaining feed, then the links stay
distinct to the end of the loop. -/
theorem runLoop_db_links_nodup (env : Env) (links0 : List String) :
    ∀ (entries : List Entry) (st : LoopState),
      (st.db.map (fun a => a.link)).Nodup →
      (entries.map (fun e => e.link)).Nodup →
      (∀ a ∈ st.db, a.link ∈ links0 ∨ a.link ∉ entries.map (fun e => e.link)) →
      ((runLoop env links0 entries st).db.map (fun a => a.link)).Nodup := by
  intro entries
  induction entries with
  | nil => intro st h1 _ _; exact h1
  | cons e rest ih =>
    intro st h1 h2 h3
    unfold runLoop
    by_cases h10 : st.accepted ≥ 10
    · rw [if_pos h10]; exact h1
    · rw [if_neg h10]
      by_cases h60 : st.processed ≥ 60
      · rw [if_pos h60]; exact h1
      · rw [if_neg h60]
        have h2' : (rest.map (fun e => e.link)).Nodup := (List.nodup_cons.mp h2).2
        have hhead : e.link ∉ rest.map (fun e => e.link) := (List.nodup_cons.mp h2).1
        rcases processEntry_db env links0 st e with hdb | ⟨hnotin, parsed, hplink, hdb⟩
        · apply ih _ (by rw [hdb]; exact h1) h2'
          intro a ha
          rw [hdb] at ha
          rcases h3 a ha with hin | hnin
          · exact Or.inl hin
          · right
            intro hmem
            exact hnin (by simp only [List.map_cons, List.mem_cons]; exact Or.inr hmem)
        · have hfresh : ∀ a ∈ st.db, a.link ≠ e.link := by
            intro a ha heq
            rcases h3 a ha with hin | hnin
            · exact hnotin (heq ▸ hin)
            · exact hnin (by simp [heq])
          apply ih
          · rw [hdb, List.map_append]
            simp only [List.map_cons, List.map_nil]
            rw [List.nodup_append]
            refine ⟨h1, List.nodup_singleton _, ?_⟩
            intro x hx hx'
            simp only [List.mem_singleton] at hx'
            rcases List.mem_map.mp hx with ⟨a, ha, rfl⟩
            exact hfresh a ha (hx'.trans hplink)
          · exact h2'
          · intro a ha
            rw [hdb] at ha
            rcases List.mem_append.mp ha with ha | ha
            · rcases h3 a ha with hin | hnin
              · exact Or.inl hin
              · right
                intro hmem
                exact hnin (by simp only [List.map_cons, List.mem_cons]; exact Or.inr hmem)
            · right
              rcases List.mem_singleton.mp ha with rfl
              rw [hplink]
              exact hhead

/-- **C1 (amended)**: if the links of the loaded collection are pairwise
distinct *and* the links of the feed entries are pairwise distinct, then
after any run — interrupted or not — the links of the persisted collection
are pairwise distinct.  (The duplicate check consults only the snapshot
taken from the loaded collection, so distinctness of the feed links is
genuinely needed: see `C1_counterexample`.) -/
theorem C1_links_nodup (env : Env) (db0 : List Article) (entries : List Entry)
    (interrupt : Option Nat)
    (hdb : (db0.map (fun a => a.link)).Nodup)
    (hfeed : (entries.map (fun e => e.link)).Nodup) :
    ((runMain env db0 entries interrupt).db.map (fun a => a.link)).Nodup := by
  have hfed : ∀ fed : List Entry, (fed.map (fun e => e.link)).Nodup →
      (((finalize (runLoop env (db0.map fun a => a.link) fed
        { processed := 0, accepted := 0, db := db0, trace := [] })).db).map
          (fun a => a.link)).Nodup := by
    intro fed hfedN
    have hloop := runLoop_db_links_nodup env (db0.map fun a => a.link) fed
      { processed := 0, accepted := 0, db := db0, trace := [] } hdb hfedN
      (fun a ha => Or.inl (List.mem_map_of_mem _ ha))
    have hperm := List.perm_insertionSort sortKeyLE
      (runLoop env (db0.map fun a => a.link) fed
        { processed := 0, accepted := 0, db := db0, trace := [] }).db
    exact ((hperm.map (fun a => a.link)).nodup_iff).mpr hloop
  cases interrupt with
  | none => exact hfed entries hfeed
  | some k =>
    apply hfed
    rw [List.map_take]
    exact hfeed.sublist (List.take_sublist k _)

def c1Env : Env where
  response := fun _ _ =>
    some "KATEGORIE: Věda TITULEK: Dobra zprava SHRNUTÍ: Neco se povedlo."
  fromIso := fun _ => none

def c1e1 : Entry :=
  { link := "L", title := "vedci uspeli", description := "", timestamp := "2025-01-01" }

def c1e2 : Entry :=
  { link := "L", title := "firma uspela", description := "", timestamp := "2025-01-02" }

/-- **C1, as stated, is false on the code**: links of records accepted
during the run are never added to the duplicate-lookup set, which is
snapshotted before the loop.  Concretely: the store starts empty, the feed
carries the same link `"L"` twice with two fresh titles, the classifier
accepts both, and the persisted collection ends with two records whose link
values are equal — not pairwise distinct. -/
theorem C1_counterexample :
    ((runMain c1Env [] [c1e1, c1e2] none).db.map (fun a => a.link)) = ["L", "L"] ∧
    ¬ ((runMain c1Env [] [c1e1, c1e2] none).db.map (fun a => a.link)).Nodup := by
  exact ⟨by decide, by decide⟩

theorem C1_links_nodup_witness :
    ((runMain c1Env [] [c1e1] none).db.map (fun a => a.link)).Nodup :=
  C1_links_nodup c1Env [] [c1e1] none (by decide) (by decide)

/-! ### C8 -/

theorem savesIn_append (a b : List Event) :
    savesIn (a ++ b) = savesIn a + savesIn b := by
  unfold savesIn
  rw [List.filter_append, List.length_append]

/-- The loop body writes nothing to the store. -/
theorem processEntry_savesIn (env : Env) (links : List String) (st : LoopState)
    (e : Entry) : savesIn (processEntry env links st e).trace = savesIn st.trace := by
  unfold processEntry
  by_cases hdup : e.link ∈ links
  · rw [if_pos hdup]
  · rw [if_neg hdup]
    by_cases hfil : is_worth_checking e.title = true
    · rw [if_neg (by simp [hfil])]
      split
      · split <;>
        · show savesIn ((st.trace ++ _) ++ _ ++ _) = _
          by_cases h : st.processed + 1 > 1 <;>
            simp [h, savesIn_append, savesIn, Event.isSave]
      · show savesIn ((st.trace ++ _) ++ _ ++ _) = _
        by_cases h : st.processed + 1 > 1 <;>
          simp [h, savesIn_append, savesIn, Event.isSave]
    · rw [if_pos (by simp [Bool.not_eq_true] at hfil ⊢; exact hfil)]

/-- The whole loop writes nothing to the store. -/
theorem runLoop_savesIn (env : Env) (links : List String) :
    ∀ (entries : List Entry) (st : LoopState),
      savesIn (runLoop env links entries st).trace = savesIn st.trace := by
  intro entries
  induction entries with
  | nil => intro st; rfl
  | cons e rest ih =>
    intro st
    unfold runLoop
    by_cases h10 : st.accepted ≥ 10
    · rw [if_pos h10]
      show savesIn (st.trace ++ [Event.printEnough]) = _
      simp [savesIn_append, savesIn, Event.isSave]
    · rw [if_neg h10]
      by_cases h60 : st.processed ≥ 60
      · rw [if_pos h60]
        show savesIn (st.trace ++ [Event.printLimit]) = _
        simp [savesIn_append, savesIn, Event.isSave]
      · rw [if_neg h60]
        rw [ih]
        exact processEntry_savesIn env links st e

/-- The state of the loop when it stops (budget exhaustion, feed exhaustion,
or a `KeyboardInterrupt` arriving before iteration `k`). -/
def loopStateOf (env : Env) (db0 : List Article) (entries : List Entry)
    (interrupt : Option Nat) : LoopState :=
  runLoop env (db0.map fun a => a.link)
    (match interrupt with
      | none => entries
      | some k => entries.take k)
    { processed := 0, accepted := 0, db := db0, trace := [] }

/-- **C8**: once the loop has started, the finalize phase runs exactly once
whatever stops the loop — interrupt at any point, budget exhaustion or feed
exhaustion: the run is the finalize phase applied to the stopped loop
state, the loop itself writes nothing to the store, the whole run's trace
holds exactly one store write, its payload (and the rendered collection)
is the sort of whatever was accumulated, and every accumulated record is
persisted — partial progress is never discarded. -/
theorem C8_finalize_always (env : Env) (db0 : List Article) (entries : List Entry)
    (interrupt : Option Nat) :
    runMain env db0 entries interrupt = finalize (loopStateOf env db0 entries interrupt) ∧
    savesIn (loopStateOf env db0 entries interrupt).trace = 0 ∧
    savesIn (runMain env db0 entries interrupt).trace = 1 ∧
    (runMain env db0 entries interrupt).db =
      sortArticles (loopStateOf env db0 entries interrupt).db ∧
    (runMain env db0 entries interrupt).trace =
      (loopStateOf env db0 entries interrupt).trace ++
        [Event.save (sortArticles (loopStateOf env db0 entries interrupt).db),
         Event.render (sortArticles (loopStateOf env db0 entries interrupt).db)] ∧
    ∀ a ∈ (loopStateOf env db0 entries interrupt).db,
      a ∈ (runMain env db0 entries interrupt).db := by
  have hloop0 : savesIn (loopStateOf env db0 entries interrupt).trace = 0 := by
    unfold loopStateOf
    rw [runLoop_savesIn]
    rfl
  refine ⟨rfl, hloop0, ?_, rfl, rfl, ?_⟩
  · show savesIn ((loopStateOf env db0 entries interrupt).trace ++
      [Event.save _, Event.render _]) = 1
    rw [savesIn_append, hloop0]
    rfl
  · intro a ha
    show a ∈ sortArticles (loopStateOf env db0 entries interrupt).db
    exact (List.perm_insertionSort sortKeyLE _).mem_iff.mpr ha

def c8Rec : Article :=
  { category := "Věda", title := "T", summary := "S", link := "L8",
    timestamp := "2025", timestamp_display := "2025", is_new := false }

theorem C8_finalize_always_witness :
    savesIn (runMain c5Env [c8Rec] [] (some 0)).trace = 1 ∧
    c8Rec ∈ (runMain c5Env [c8Rec] [] (some 0)).db := by
  have h := C8_finalize_always c5Env [c8Rec] [] (some 0)
  exact ⟨h.2.2.1, h.2.2.2.2.2 c8Rec (by decide)⟩

/-! ### C2 -/

/-- **C2**: the final sort orders the merged collection by
(`is_new` descending, timestamp string descending lexicographically):
every `is_new = true` record precedes every `is_new = false` record
regardless of timestamp; among records with equal `is_new` a
lexicographically greater timestamp string comes first; and any two records
with equal (`is_new`, timestamp) retain their pre-sort relative order
(stability, stated as: every equal-key pair that is a sublist of the input
is still a sublist of the output). -/
theorem C2_sort_order (l : List Article) :
    (∀ (i j : Nat) (hi : i < (sortArticles l).length) (hj : j < (sortArticles l).length),
      i < j → ((sortArticles l).get ⟨j, hj⟩).is_new = true →
      ((sortArticles l).get ⟨i, hi⟩).is_new = true) ∧
    (∀ (i j : Nat) (hi : i < (sortArticles l).length) (hj : j < (sortArticles l).length),
      i < j →
      ((sortArticles l).get ⟨i, hi⟩).is_new = ((sortArticles l).get ⟨j, hj⟩).is_new →
      ((sortArticles l).get ⟨j, hj⟩).timestamp ≤ ((sortArticles l).get ⟨i, hi⟩).timestamp) ∧
    (∀ a b : Article, List.Sublist [a, b] l → a.is_new = b.is_new → a.timestamp = b.timestamp →
      List.Sublist [a, b] (sortArticles l)) := by
  have hsorted : (sortArticles l).Sorted sortKeyLE := List.sorted_insertionSort sortKeyLE l
  refine ⟨?_, ?_, ?_⟩
  · intro i j hi hj hij hjnew
    have hrel := hsorted.rel_get_of_lt
      (a := (⟨i, hi⟩ : Fin (sortArticles l).length)) (b := ⟨j, hj⟩) hij
    rcases hrel with h | ⟨h, _⟩
    · cases hgi : ((sortArticles l).get ⟨i, hi⟩).is_new
      · rw [hgi, hjnew] at h
        simp at h
      · rfl
    · rw [hjnew] at h
      exact h.symm
  · intro i j hi hj hij hnew
    have hrel := hsorted.rel_get_of_lt
      (a := (⟨i, hi⟩ : Fin (sortArticles l).length)) (b := ⟨j, hj⟩) hij
    rcases hrel with h | ⟨_, hle⟩
    · rw [hnew] at h
      exact absurd h (lt_irrefl _)
    · exact (charListLE_data_iff_le _ _).mp hle
  · intro a b hab hnew hts
    apply List.pair_sublist_insertionSort
    · exact Or.inr ⟨hnew.symm, by rw [← hts]; exact charListLE_refl _⟩
    · exact hab

def c2A : Article :=
  { category := "Věda", title := "A", summary := "", link := "A",
    timestamp := "2025-01-02", timestamp_display := "", is_new := true }

def c2B : Article :=
  { category := "Věda", title := "B", summary := "", link := "B",
    timestamp := "2025-01-02", timestamp_display := "", is_new := true }

def c2C : Article :=
  { category := "Věda", title := "C", summary := "", link := "C",
    timestamp := "2099-01-01", timestamp_display := "", is_new := false }

theorem C2_sort_order_witness :
    ((sortArticles [c2A, c2B, c2C]).get ⟨0, by decide⟩).is_new = true ∧
    ((sortArticles [c2A, c2B, c2C]).get ⟨1, by decide⟩).timestamp ≤
      ((sortArticles [c2A, c2B, c2C]).get ⟨0, by decide⟩).timestamp ∧
    List.Sublist [c2A, c2B] (sortArticles [c2A, c2B, c2C]) := by
  have h := C2_sort_order [c2A, c2B, c2C]
  refine ⟨?_, ?_, ?_⟩
  · exact h.1 0 1 (by decide) (by decide) (by decide) (by decide)
  · exact h.2.1 0 1 (by decide) (by decide) (by decide) (by decide)
  · exact h.2.2 c2A c2B
      (List.Sublist.cons₂ c2A (List.Sublist.cons₂ c2B (List.nil_sublist [c2C]))) rfl rfl

/-! ### C9 -/

theorem dictGet?_dictSet_self (d : JObj) (k : String) (v : JVal) :
    dictGet? (dictSet d k v) k = some v := by
  induction d with
  | nil =>
    unfold dictSet dictGet?
    rw [if_pos rfl]
  | cons p rest ih =>
    by_cases hp : p.1 = k
    · unfold dictSet
      rw [if_pos hp]
      unfold dictGet?
      rw [if_pos rfl]
    · unfold dictSet
      rw [if_neg hp]
      unfold dictGet?
      rw [if_neg hp]
      exact ih

theorem dictGet?_dictSet_ne (d : JObj) (k k' : String) (v : JVal) (h : k' ≠ k) :
    dictGet? (dictSet d k v) k' = dictGet? d k' := by
  have hk : k ≠ k' := fun hh => h hh.symm
  induction d with
  | nil =>
    show dictGet? [(k, v)] k' = dictGet? [] k'
    unfold dictGet?
    rw [if_neg hk]
    rfl
  | cons p rest ih =>
    by_cases hp : p.1 = k
    · unfold dictSet
      rw [if_pos hp]
      unfold dictGet?
      rw [if_neg hk, if_neg (by rw [hp]; exact hk)]
    · unfold dictSet
      rw [if_neg hp]
      unfold dictGet?
      by_cases hpk : p.1 = k'
      · rw [if_pos hpk, if_pos hpk]
      · rw [if_neg hpk, if_neg hpk]
        exact ih

/-- **C9**: load followed immediately by save (no intervening modification)
is idempotent on record content: the persisted collection keeps its length,
and every field of every record round-trips unchanged — strings, including
non-ASCII text, are preserved verbatim — except that `is_new` is forced to
`false` on every record during load, regardless of its previously persisted
value. -/
theorem C9_load_save_roundtrip (data : List JObj) :
    (save_database (load_database (some data))).length = data.length ∧
    ∀ (i : Nat) (hi : i < (save_database (load_database (some data))).length)
      (hi' : i < data.length),
      (∀ k, k ≠ "is_new" →
        dictGet? ((save_database (load_database (some data))).get ⟨i, hi⟩) k =
          dictGet? (data.get ⟨i, hi'⟩) k) ∧
      dictGet? ((save_database (load_database (some data))).get ⟨i, hi⟩) "is_new" =
        some (JVal.bool false) := by
  have hlen : (save_database (load_database (some data))).length = data.length := by
    show (data.map _).length = data.length
    rw [List.length_map]
  refine ⟨hlen, ?_⟩
  intro i hi hi'
  have hget : (save_database (load_database (some data))).get ⟨i, hi⟩ =
      dictSet (data.get ⟨i, hi'⟩) "is_new" (JVal.bool false) := by
    show (data.map (fun a => dictSet a "is_new" (JVal.bool false))).get ⟨i, hi⟩ = _
    rw [List.get_eq_getElem, List.get_eq_getElem, List.getElem_map]
  rw [hget]
  exact ⟨fun k hk => dictGet?_dictSet_ne _ _ _ _ hk, dictGet?_dictSet_self _ _ _⟩

def c9Rec : JObj :=
  [("category", JVal.str "Věda"), ("title", JVal.str "Objev století"),
   ("summary", JVal.str "Vědci objevili nový lék."), ("link", JVal.str "https9"),
   ("timestamp", JVal.str "2025-01-01T10:00:00"),
   ("timestamp_display", JVal.str "01. 01. 2025 10:00"), ("is_new", JVal.bool true)]

theorem C9_load_save_roundtrip_witness :
    dictGet? ((save_database (load_database (some [c9Rec]))).get ⟨0, by decide⟩) "title" =
      some (JVal.str "Objev století") ∧
    dictGet? ((save_database (load_database (some [c9Rec]))).get ⟨0, by decide⟩) "is_new" =
      some (JVal.bool false) := by
  have h := (C9_load_save_roundtrip [c9Rec]).2 0 (by decide) (by decide)
  exact ⟨(h.1 "title" (by decide)).trans (by decide), h.2⟩

/-! ### C10 -/

theorem get_existing_links_none (data : List JObj)
    (h : ∃ item ∈ data, dictGet? item "link" = none) :
    get_existing_links data = none := by
  induction data with
  | nil =>
    rcases h with ⟨item, hmem, _⟩
    cases hmem
  | cons d rest ih =>
    rcases h with ⟨item, hmem, hnone⟩
    rcases List.mem_cons.mp hmem with rfl | hmem'
    · unfold get_existing_links
      rw [hnone]
    · unfold get_existing_links
      rw [ih ⟨item, hmem', hnone⟩]
      cases dictGet? d "link" <;> rfl

theorem get_existing_links_some (data : List JObj)
    (h : ∀ item ∈ data, (dictGet? item "link").isSome) :
    ∃ l, get_existing_links data = some l ∧
      ∀ v, v ∈ l ↔ ∃ item ∈ data, dictGet? item "link" = some v := by
  induction data with
  | nil => exact ⟨[], rfl, by simp⟩
  | cons d rest ih =>
    have hd := h d (List.mem_cons_self d rest)
    rcases Option.isSome_iff_exists.mp hd with ⟨v, hv⟩
    rcases ih (fun item hm => h item (List.mem_cons_of_mem d hm)) with ⟨l, hl, hmem⟩
    refine ⟨v :: l, ?_, ?_⟩
    · unfold get_existing_links
      rw [hv, hl]
    · intro w
      simp only [List.mem_cons]
      constructor
      · rintro (rfl | hw)
        · exact ⟨d, Or.inl rfl, hv⟩
        · rcases (hmem w).mp hw with ⟨item, hm, hlink⟩
          exact ⟨item, Or.inr hm, hlink⟩
      · rintro ⟨item, rfl | hm', hlink⟩
        · left
          exact (Option.some.inj (hv.symm.trans hlink)).symm
        · right
          exact (hmem w).mpr ⟨item, hm', hlink⟩

/-- **C10**: `get_existing_links` is total exactly on collections in which
every record has a `'link'` field — there it returns exactly the set of the
records' link values; but a loaded collection containing a record without
`'link'` raises a `KeyError` that propagates out of the startup phase
(fatal), unlike the read/parse failures inside `load_database`, which are
recovered into an empty collection and a successful startup. -/
theorem C10_existing_links_totality (data : List JObj) :
    ((∀ item ∈ data, (dictGet? item "link").isSome) →
      ∃ l, get_existing_links data = some l ∧
        ∀ v, v ∈ l ↔ ∃ item ∈ data, dictGet? item "link" = some v) ∧
    (∀ item ∈ data, dictGet? item "link" = none → startup (some data) = none) ∧
    startup none = some ([], []) := by
  refine ⟨get_existing_links_some data, ?_, rfl⟩
  intro item hmem hnone
  show (match get_existing_links (load_database (some data)) with
    | none => none
    | some links => some (load_database (some data), links)) = none
  have hlinks : get_existing_links (load_database (some data)) = none := by
    apply get_existing_links_none
    refine ⟨dictSet item "is_new" (JVal.bool false), ?_, ?_⟩
    · exact List.mem_map_of_mem _ hmem
    · rw [dictGet?_dictSet_ne _ _ _ _ (by decide)]
      exact hnone
  rw [hlinks]

theorem C10_existing_links_totality_witness :
    (∃ l, get_existing_links [[("link", JVal.str "L")]] = some l ∧
      ∀ v, v ∈ l ↔ ∃ item ∈ [[("link", JVal.str "L")]], dictGet? item "link" = some v) ∧
    startup (some [[("title", JVal.str "X")]]) = none ∧
    startup none = some ([], []) := by
  refine ⟨(C10_existing_links_totality [[("link", JVal.str "L")]]).1 (by decide), ?_,
    (C10_existing_links_totality []).2.2⟩
  exact (C10_existing_links_totality [[("title", JVal.str "X")]]).2.1
    [("title", JVal.str "X")] (by decide) (by decide)

end DobreZpravy
